import Mathlib

/-!
Formal model of the githooklib hook resolution & execution engine.

The definitions below are a shallow embedding of the Python sources:
  * `githooklib/chain/chain_result.py` (`StepResult`, `ChainResult`),
  * `githooklib/chain/hook_chain.py` (`HookChain`),
  * `githooklib/chain/hook_step.py` (`HookStep`),
  * `githooklib/config/config_schema.py` (`ChainStepConfig`),
and, where the corresponding module is not part of the source tree
(`githooklib/context.py`, `githooklib/git_hook.py`,
`githooklib/services/hook_discovery_service.py`, `githooklib/constants.py`),
definitions modelled from the specification, as marked in their doc comments.

Python floats (durations in milliseconds) are modelled as rationals; Python
ints (exit codes) as `Int`; `None`-able values as `Option`; exceptions raised
at construction time as `Except String`.
-/

namespace Githooklib

/-- Modelled from the spec: `githooklib/constants.py` is absent from the
source tree; the spec fixes the convention 0 = success. -/
def EXIT_SUCCESS : Int := 0

/-- Modelled from the spec: non-zero = failure, generic failure code 1
(the unit tests compare failing exit codes with 1). -/
def EXIT_FAILURE : Int := 1

/-- `StepResult` dataclass fields from `githooklib/chain/chain_result.py`. -/
structure StepResult where
  step_name : String
  success : Bool
  message : Option String
  exit_code : Int
  skipped : Bool
  duration_ms : ℚ
deriving DecidableEq, Repr

/-- The exit-code normalization shared verbatim by `StepResult.__post_init__`
and `ChainResult.__post_init__` in `githooklib/chain/chain_result.py`. -/
def normalizeExit (exit_code : Int) (success : Bool) : Int :=
  if exit_code = EXIT_SUCCESS ∧ ¬ success then EXIT_FAILURE
  else if exit_code ≠ EXIT_SUCCESS ∧ success then EXIT_SUCCESS
  else exit_code

/-- `StepResult` construction including `StepResult.__post_init__` from
`githooklib/chain/chain_result.py`: a failure with exit code 0 is re-coded
to `EXIT_FAILURE`, a success with a non-zero exit code is re-coded to
`EXIT_SUCCESS`. -/
def mkStepResult (step_name : String) (success : Bool) (message : Option String)
    (exit_code : Int) (skipped : Bool) (duration_ms : ℚ) : StepResult :=
  ⟨step_name, success, message, normalizeExit exit_code success, skipped, duration_ms⟩

/-- `ChainResult` dataclass fields from `githooklib/chain/chain_result.py`. -/
structure ChainResult where
  success : Bool
  steps : List StepResult
  message : Option String
  exit_code : Int
  total_duration_ms : ℚ
deriving DecidableEq, Repr

/-- `ChainResult` construction including `ChainResult.__post_init__` from
`githooklib/chain/chain_result.py`: with an empty step list the method
returns immediately; otherwise the exit code is normalized exactly as for
`StepResult` and `total_duration_ms` is overwritten with the sum of the
individual step durations. -/
def mkChainResult (success : Bool) (steps : List StepResult) (message : Option String)
    (exit_code : Int) (total_duration_ms : ℚ) : ChainResult :=
  if steps.isEmpty then ⟨success, steps, message, exit_code, total_duration_ms⟩
  else
    ⟨success, steps, message, normalizeExit exit_code success,
      (steps.map (·.duration_ms)).sum⟩

/-- `ChainResult.get_failed_steps` from `githooklib/chain/chain_result.py`. -/
def ChainResult.get_failed_steps (c : ChainResult) : List StepResult :=
  c.steps.filter (fun s => !s.success && !s.skipped)

/-- `ChainResult.get_successful_steps` from `githooklib/chain/chain_result.py`. -/
def ChainResult.get_successful_steps (c : ChainResult) : List StepResult :=
  c.steps.filter (fun s => s.success && !s.skipped)

/-- `ChainResult.get_skipped_steps` from `githooklib/chain/chain_result.py`. -/
def ChainResult.get_skipped_steps (c : ChainResult) : List StepResult :=
  c.steps.filter (fun s => s.skipped)

/-- `HookResult` fields (`githooklib/definitions.py` is referenced by
`hook_step.py` but absent from the source tree; only the three fields read
by `HookStep.execute` are needed: `success`, `message`, `exit_code`). -/
structure HookResult where
  success : Bool
  message : Option String
  exit_code : Int
deriving DecidableEq, Repr

/-- Runtime behaviour of one chain step's body during one execution: the
`try` block of `HookStep.execute` either returns a `HookResult` after some
elapsed wall time, or raises an exception with some message. -/
inductive StepOutcome where
  | ok (result : HookResult) (duration_ms : ℚ)
  | raised (msg : String) (duration_ms : ℚ)
deriving DecidableEq, Repr

/-- One chain step (`HookStep` from `githooklib/chain/hook_step.py`) paired
with the runtime behaviour its body exhibits in the execution under study;
the chain engine in `hook_chain.py` only reads `name`,
`continue_on_failure` and the `StepResult` returned by `execute`. -/
structure StepSpec where
  name : String
  continue_on_failure : Bool
  outcome : StepOutcome
deriving DecidableEq, Repr

/-- `HookStep.execute` from `githooklib/chain/hook_step.py`: a normally
returned `HookResult` is wrapped into a `StepResult` with the elapsed
duration; an exception is caught and converted into a failed `StepResult`
with message `"Error: ..."` and exit code 1 (never propagated). -/
def StepSpec.execute (s : StepSpec) : StepResult :=
  match s.outcome with
  | .ok r d => mkStepResult s.name r.success r.message r.exit_code false d
  | .raised m d => mkStepResult s.name false (some ("Error: " ++ m)) 1 false d

/-- The `StepResult` recorded for a step that is skipped after an earlier
failure in `HookChain._execute_sequential` (`githooklib/chain/hook_chain.py`):
`success=False`, message `"Skipped due to previous failure"`, `skipped=True`,
and the dataclass defaults `exit_code=EXIT_SUCCESS`, `duration_ms=0.0`
(the exit code is then re-coded by `__post_init__`). -/
def skippedStepResult (name : String) : StepResult :=
  mkStepResult name false (some "Skipped due to previous failure") EXIT_SUCCESS true 0

/-- `HookChain._execute_sequential` from `githooklib/chain/hook_chain.py`:
steps run in declared order; after the first executed step whose result is
unsuccessful and whose `continue_on_failure` is false, every remaining step
is recorded as skipped without being executed. -/
def executeSequential : List StepSpec → List StepResult
  | [] => []
  | s :: rest =>
    let r := s.execute
    if !r.success && !s.continue_on_failure then
      r :: rest.map (fun t => skippedStepResult t.name)
    else
      r :: executeSequential rest

/-- Python's `list.index`: position of the first occurrence.  Used for the
sort key in `HookChain._execute_parallel`:
`[s.name for s in self.steps].index(r.step_name)`.  (For an element that is
present — the only case reachable from `_execute_parallel`, since every
result name comes from a step — this is exactly `list.index`.) -/
def nameIndex : List String → String → ℕ
  | [], _ => 0
  | n :: rest, x => if x = n then 0 else nameIndex rest x + 1

/-- The final reordering in `HookChain._execute_parallel`
(`results.sort(key=...)`): Python's `list.sort` is stable, and a stable sort
by the natural-number key `nameIndex names ·.step_name` is exactly the
concatenation, for each key value `k` in increasing order, of the sub-list
of results whose key is `k`, kept in their pre-sort (completion) order. -/
def stableSortByName (names : List String) (results : List StepResult) : List StepResult :=
  (List.range names.length).flatMap
    (fun k => results.filter (fun r => nameIndex names r.step_name == k))

/-- `HookChain._execute_parallel` from `githooklib/chain/hook_chain.py`:
all steps are submitted to the pool and their results are collected in
completion order (`as_completed`), then sorted by the declared-order index
of their step name.  The nondeterministic completion order is modelled by
the parameter `completed`, a permutation of the declared step list. -/
def executeParallel (steps completed : List StepSpec) : List StepResult :=
  stableSortByName (steps.map (·.name)) (completed.map StepSpec.execute)

/-- The result list computed by `HookChain.execute`
(`githooklib/chain/hook_chain.py`): `_execute_parallel` if `parallel` was
requested, `_execute_sequential` otherwise. -/
def chainResults (steps : List StepSpec) (parallel : Bool)
    (completed : List StepSpec) : List StepResult :=
  if parallel then executeParallel steps completed else executeSequential steps

/-- The `success` aggregation in `HookChain.execute`:
`all(result.success or result.skipped for result in results)`. -/
def chainSuccess (results : List StepResult) : Bool :=
  results.all (fun r => r.success || r.skipped)

/-- The `failed_count` aggregation in `HookChain.execute`:
`len([r for r in results if not r.success and not r.skipped])`. -/
def chainFailedCount (results : List StepResult) : ℕ :=
  (results.filter (fun r => !r.success && !r.skipped)).length

/-- The human message built by `HookChain.execute`. -/
def chainMessage (results : List StepResult) : String :=
  if chainSuccess results then
    "All " ++ toString results.length ++ " steps completed successfully"
  else
    toString (chainFailedCount results) ++ " step(s) failed"

/-- `HookChain.execute` from `githooklib/chain/hook_chain.py`:
dispatches on `parallel`, computes `success` as "every result is successful
or skipped", counts failed steps for the message, and builds the
`ChainResult` with the wall-clock elapsed time (which `__post_init__` then
overwrites with the sum of step durations whenever the step list is
non-empty).  `wall_clock_ms` stands for `(time.time() - start_time) * 1000`. -/
def HookChain.execute (steps : List StepSpec) (parallel : Bool)
    (completed : List StepSpec) (wall_clock_ms : ℚ) : ChainResult :=
  mkChainResult (chainSuccess (chainResults steps parallel completed))
    (chainResults steps parallel completed)
    (some (chainMessage (chainResults steps parallel completed)))
    EXIT_SUCCESS wall_clock_ms

/-- A step at which sequential execution stops: its executed result is
unsuccessful and its `continue_on_failure` flag is false. -/
def StepSpec.stops (s : StepSpec) : Bool :=
  !s.execute.success && !s.continue_on_failure

/-- Python truthiness of an `Optional[str]`: `None` and `""` are falsy. -/
def truthyStr : Option String → Bool
  | none => false
  | some s => !s.isEmpty

/-- Python truthiness of an `Optional[List[str]]`: `None` and `[]` are falsy. -/
def truthyList : Option (List String) → Bool
  | none => false
  | some l => !l.isEmpty

/-- Python truthiness of an `Optional[Type[GitHook]]`: a class object is
always truthy, so only `None` is falsy. -/
def truthyHookClass : Option String → Bool
  | none => false
  | some _ => true

/-- `ChainStepConfig` dataclass fields from
`githooklib/config/config_schema.py`; the `hook_class` a step resolves to is
identified here by the hook's name. -/
structure ChainStepConfig where
  name : String
  hook : Option String
  command : Option (List String)
  continue_on_failure : Bool
  parallel : Bool
  file_patterns : Option (List String)
deriving DecidableEq, Repr

/-- `ChainStepConfig` construction including `ChainStepConfig.__post_init__`
from `githooklib/config/config_schema.py`: `ValueError` is raised when
neither `hook` nor `command` is (truthily) set, and when both are. -/
def mkChainStepConfig (name : String) (hook : Option String)
    (command : Option (List String)) (continue_on_failure : Bool)
    (parallel : Bool) (file_patterns : Option (List String)) :
    Except String ChainStepConfig :=
  if !truthyStr hook && !truthyList command then
    .error ("Chain step '" ++ name ++ "' must have either 'hook' or 'command'")
  else if truthyStr hook && truthyList command then
    .error ("Chain step '" ++ name ++ "' cannot have both 'hook' and 'command'")
  else
    .ok ⟨name, hook, command, continue_on_failure, parallel, file_patterns⟩

/-- `HookStep` attribute fields from `githooklib/chain/hook_step.py`; the
`hook_class` (a `Type[GitHook]` in Python) is identified by its class name. -/
structure HookStep where
  name : String
  hook_class : Option String
  command : Option (List String)
  continue_on_failure : Bool
deriving DecidableEq, Repr

/-- `HookStep.__init__` from `githooklib/chain/hook_step.py`: `ValueError`
is raised only when neither `hook_class` nor `command` is (truthily) set;
unlike `ChainStepConfig`, providing both is accepted. -/
def mkHookStep (name : String) (hook_class : Option String)
    (command : Option (List String)) (continue_on_failure : Bool) :
    Except String HookStep :=
  if !truthyHookClass hook_class && !truthyList command then
    .error ("Step '" ++ name ++ "' must have either hook_class or command")
  else
    .ok ⟨name, hook_class, command, continue_on_failure⟩

/-- What a `HookStep.execute` call runs. -/
inductive StepAction where
  | hookRun (hook_class : String)
  | commandRun (argv : List String)
deriving DecidableEq, Repr

/-- The branch structure of `HookStep.execute` from
`githooklib/chain/hook_step.py`: `if self.hook_class:` runs the hook,
`elif self.command:` runs the command, otherwise nothing is run (the
"No hook or command configured" failure path). -/
def HookStep.executedActions (s : HookStep) : List StepAction :=
  match s.hook_class with
  | some h => [.hookRun h]
  | none =>
    match s.command with
    | some cmd => if cmd.isEmpty then [] else [.commandRun cmd]
    | none => []

/-- The pure git queries the context layer can issue
(`GitGateway.get_diff_files_between_refs`, `get_cached_index_files`,
`get_all_modified_files` in the unit tests; the spec's
`diffFiles`/`stagedFiles`/`allModifiedFiles`). -/
inductive GitQuery where
  | diffFilesBetweenRefs (remote_ref local_ref : String)
  | cachedIndexFiles
  | allModifiedFiles
deriving DecidableEq, Repr

/-- The git query collaborator, as a pure environment: what each query
would answer during this invocation. -/
structure GitGateway where
  diff_files_between_refs : String → String → List String
  cached_index_files : List String
  all_modified_files : List String

/-- Split a character list at every character satisfying `p` (keeping empty
segments), as Python's `str.split(sep)` does for a single separator. -/
def splitChars (p : Char → Bool) : List Char → List (List Char)
  | [] => [[]]
  | c :: cs =>
    let r := splitChars p cs
    if p c then [] :: r
    else
      match r with
      | [] => [[c]]
      | seg :: rest => (c :: seg) :: rest

/-- Python's no-argument `str.split()`: split on whitespace runs, dropping
empty tokens. -/
def tokens (line : String) : List String :=
  ((splitChars (fun c => c.isWhitespace) line.toList).filter
    (fun cs => !cs.isEmpty)).map (fun cs => String.mk cs)

/-- Modelled from the spec: `GitHookContext._parse_pre_push_refs_from_stdin`
(`githooklib/context.py` is absent from the source tree).  The first stdin
line is parsed as `<local-ref> <local-sha> <remote-ref> <remote-sha>`
(whitespace-separated); fewer than four tokens means unparsable.  Returns
`(remote_ref, local_ref)` on success, as the unit tests pin down. -/
def parse_pre_push_refs_from_stdin (stdin_lines : List String) :
    Option (String × String) :=
  match stdin_lines with
  | [] => none
  | line :: _ =>
    match tokens line with
    | local_ref :: _ :: remote_ref :: _ :: _ => some (remote_ref, local_ref)
    | _ => none

/-- The staged-first fallback shared by both branches of
`get_changed_files`: the cached-index (staged) list if non-empty, otherwise
the all-modified list.  The second component records the git queries issued,
in order. -/
def changedFilesFallback (gw : GitGateway) : List String × List GitQuery :=
  if gw.cached_index_files.isEmpty then
    (gw.all_modified_files, [.cachedIndexFiles, .allModifiedFiles])
  else
    (gw.cached_index_files, [.cachedIndexFiles])

/-- Modelled from the spec: `GitHookContext.get_changed_files`
(`githooklib/context.py` is absent from the source tree).  For a pre-push
hook whose first stdin line parses as a ref-update line, the diff between
the parsed refs (remote passed first) is used — even when empty, with no
fallback; otherwise the staged list is used if non-empty, else the
all-modified list.  The second component records the git queries issued. -/
def get_changed_files (gw : GitGateway) (hook_name : String)
    (stdin_lines : List String) : List String × List GitQuery :=
  if hook_name = "pre-push" then
    match parse_pre_push_refs_from_stdin stdin_lines with
    | some (remote_ref, local_ref) =>
        (gw.diff_files_between_refs remote_ref local_ref,
          [.diffFilesBetweenRefs remote_ref local_ref])
    | none => changedFilesFallback gw
  else
    changedFilesFallback gw

/-- Single-segment glob matching: `*` matches any run of characters inside
the segment, `?` matches one character, anything else matches literally. -/
def segMatch : List Char → List Char → Bool
  | [], cs => cs.isEmpty
  | '*' :: ps, cs => cs.tails.any (fun suffix => segMatch ps suffix)
  | '?' :: _, [] => false
  | '?' :: ps, _ :: cs => segMatch ps cs
  | _ :: _, [] => false
  | p :: ps, c :: cs => p == c && segMatch ps cs

/-- Path glob matching over `/`-separated segments: a `**` segment matches
any (possibly empty) run of whole segments, every other pattern segment
must match exactly one path segment via `segMatch`. -/
def segsMatch : List (List Char) → List (List Char) → Bool
  | [], segs => segs.isEmpty
  | pseg :: ps, segs =>
    if pseg = ['*', '*'] then
      segs.tails.any (fun suffix => segsMatch ps suffix)
    else
      match segs with
      | [] => false
      | seg :: rest => segMatch pseg seg && segsMatch ps rest

/-- Modelled from the spec: recursive-glob matching of one pattern against
one repository-relative path — `*` matches only within a path segment,
`**` matches across segment boundaries. -/
def globMatch (pattern path : String) : Bool :=
  segsMatch (splitChars (fun c => c = '/') pattern.toList)
    (splitChars (fun c => c = '/') path.toList)

/-- Modelled from the spec: `GitHook._should_run_based_on_patterns`
(`githooklib/git_hook.py` is absent from the source tree).  Absent patterns
or an explicitly empty pattern list mean "always run"; a non-empty pattern
list means "run iff at least one changed file matches at least one
pattern". -/
def should_run_based_on_patterns (file_patterns : Option (List String))
    (changed_files : List String) : Bool :=
  match file_patterns with
  | none => true
  | some [] => true
  | some pats => changed_files.any (fun f => pats.any (fun p => globMatch p f))

/-- Modelled from the spec: the skip/execute decision of `GitHook.run`
(`githooklib/git_hook.py` is absent from the source tree).  The gate is
evaluated on the files resolved through the context; if gated out, the run
returns `EXIT_SUCCESS` without executing the hook body; otherwise the
body's `HookResult` (normalized so that `exit_code` is 0 iff `success`)
supplies the exit code, and an unhandled exception in the body is caught
and converted to the generic failure code. -/
def GitHook.run (gw : GitGateway) (hook_name : String) (stdin_lines : List String)
    (file_patterns : Option (List String)) (body : StepOutcome) : Int :=
  if should_run_based_on_patterns file_patterns
      (get_changed_files gw hook_name stdin_lines).1 = false then
    EXIT_SUCCESS
  else
    match body with
    | .ok r _ => normalizeExit r.exit_code r.success
    | .raised _ _ => EXIT_FAILURE

/-- A registered hook implementation type, as discovery sees it: the class
name, the (best-effort) source file it was declared in, and the hook name
it declares. -/
structure HookClass where
  class_name : String
  module_file : Option String
  hook_name : String
deriving DecidableEq, Repr

/-- First-occurrence deduplication of keys (the key order of a Python dict
built by insertion). -/
def uniqueKeysAux : List String → List String → List String
  | [], acc => acc.reverse
  | x :: xs, acc =>
    if x ∈ acc then uniqueKeysAux xs acc else uniqueKeysAux xs (x :: acc)

/-- Keys of a Python dict in first-insertion order. -/
def uniqueKeys (l : List String) : List String :=
  uniqueKeysAux l []

/-- Modelled from the spec:
`HookDiscoveryService._collect_hook_classes_by_name`
(`githooklib/services/hook_discovery_service.py` is absent from the source
tree): the registered implementation types grouped by their declared hook
name, groups in first-registration order. -/
def groupByHookName (registered : List HookClass) : List (String × List HookClass) :=
  (uniqueKeys (registered.map (·.hook_name))).map
    (fun h => (h, registered.filter (fun c => c.hook_name == h)))

/-- One offending type as rendered in the duplicate-hook error: the class
name followed by its best-effort source file. -/
def classLocation (c : HookClass) : String :=
  c.class_name ++
    (match c.module_file with
     | some f => " (" ++ f ++ ")"
     | none => "")

/-- Modelled from the spec and the discovery unit tests: the message of the
duplicate-hook error names the hook and every offending type with
best-effort module information. -/
def duplicateHookMessage (hook_name : String) (classes : List HookClass) : String :=
  "Duplicate hook implementations found for hook '" ++ hook_name ++ "': " ++
    String.intercalate ", " (classes.map classLocation)

/-- Modelled from the spec:
`HookDiscoveryService._validate_no_duplicate_hooks`: any group with more
than one distinct implementation type makes the discovery pass fail with
the duplicate-hook error; otherwise validation passes. -/
def validate_no_duplicate_hooks (groups : List (String × List HookClass)) :
    Except String Unit :=
  match groups.find? (fun g => 1 < g.2.dedup.length) with
  | some g => .error (duplicateHookMessage g.1 g.2)
  | none => .ok ()

/-- The discovery pass on the registered-type list, reduced to the part the
duplicate check observes: group by hook name, then validate. -/
def discoveryValidation (registered : List HookClass) : Except String Unit :=
  validate_no_duplicate_hooks (groupByHookName registered)

end Githooklib

namespace Githooklib

theorem normalizeExit_true (e : Int) : normalizeExit e true = 0 := by
  unfold normalizeExit EXIT_SUCCESS
  by_cases he : e = 0 <;> simp [he]

theorem normalizeExit_false (e : Int) : normalizeExit e false ≠ 0 := by
  unfold normalizeExit EXIT_SUCCESS EXIT_FAILURE
  by_cases he : e = 0 <;> simp [he]

/-- Claim C8 counterexample: `ChainResult.__post_init__` returns before the
exit-code normalization whenever the step list is empty, so a failure
`ChainResult` constructed with an empty step list and exit code 0 keeps
exit code 0, disagreeing with `success = false`. -/
theorem chainResult_empty_steps_skips_normalization :
    (mkChainResult false [] none EXIT_SUCCESS 0).success = false ∧
    (mkChainResult false [] none EXIT_SUCCESS 0).exit_code = 0 := by
  constructor <;> rfl

/-- Claim C8 (amended): a constructed `StepResult` never lets `success` and
`exit_code` disagree (a success is normalized to exit code 0, a failure to a
non-zero code), and a constructed `ChainResult` has the same guarantee
whenever its step list is non-empty; only an empty-steps `ChainResult`
keeps its given exit code unnormalized. -/
theorem result_success_exit_code_agree :
    (∀ n s m e sk d, ((mkStepResult n s m e sk d).success = true →
        (mkStepResult n s m e sk d).exit_code = 0) ∧
      ((mkStepResult n s m e sk d).success = false →
        (mkStepResult n s m e sk d).exit_code ≠ 0)) ∧
    (∀ s steps m e d, steps ≠ [] →
      ((mkChainResult s steps m e d).success = true →
        (mkChainResult s steps m e d).exit_code = 0) ∧
      ((mkChainResult s steps m e d).success = false →
        (mkChainResult s steps m e d).exit_code ≠ 0)) := by
  constructor
  · intro n s m e sk d
    constructor
    · intro hs
      have hsucc : s = true := hs
      subst hsucc
      exact normalizeExit_true e
    · intro hs
      have hsucc : s = false := hs
      subst hsucc
      exact normalizeExit_false e
  · intro s steps m e d hne
    have hemp : steps.isEmpty = false := by
      cases steps with
      | nil => exact absurd rfl hne
      | cons a l => rfl
    have hform : mkChainResult s steps m e d =
        ⟨s, steps, m, normalizeExit e s, (steps.map (·.duration_ms)).sum⟩ := by
      unfold mkChainResult
      rw [hemp]
      rfl
    constructor
    · intro hs
      rw [hform] at hs ⊢
      have hsucc : s = true := hs
      subst hsucc
      exact normalizeExit_true e
    · intro hs
      rw [hform] at hs ⊢
      have hsucc : s = false := hs
      subst hsucc
      exact normalizeExit_false e

/-- Claim C8 witness: the amended normalization evaluated at concrete
inputs: a failing step constructed with exit code 0 is re-coded, and a
one-step failing chain constructed with exit code 0 is re-coded. -/
theorem result_success_exit_code_agree_witness :
    (mkStepResult "s" false none 0 false 0).exit_code ≠ 0 ∧
    (mkChainResult false [mkStepResult "s" false none 0 false 0] none 0 0).exit_code ≠ 0 := by
  constructor
  · exact (result_success_exit_code_agree.1 "s" false none 0 false 0).2 rfl
  · exact ((result_success_exit_code_agree.2 false
      [mkStepResult "s" false none 0 false 0] none 0 0 (by simp)).2) rfl

theorem executeSequential_cons_stop (s : StepSpec) (rest : List StepSpec)
    (hs : s.stops = true) :
    executeSequential (s :: rest) =
      s.execute :: rest.map (fun t => skippedStepResult t.name) := by
  have hc : (!s.execute.success && !s.continue_on_failure) = true := hs
  simp only [executeSequential, hc, if_true]

theorem executeSequential_cons_go (s : StepSpec) (rest : List StepSpec)
    (hs : s.stops = false) :
    executeSequential (s :: rest) = s.execute :: executeSequential rest := by
  have hc : (!s.execute.success && !s.continue_on_failure) = false := hs
  simp only [executeSequential, hc, Bool.false_eq_true, if_false]

theorem mkChainResult_success (s : Bool) (steps : List StepResult)
    (m : Option String) (e : Int) (d : ℚ) :
    (mkChainResult s steps m e d).success = s := by
  unfold mkChainResult
  by_cases h : steps.isEmpty <;> simp [h]

theorem mkChainResult_steps (s : Bool) (steps : List StepResult)
    (m : Option String) (e : Int) (d : ℚ) :
    (mkChainResult s steps m e d).steps = steps := by
  unfold mkChainResult
  by_cases h : steps.isEmpty <;> simp [h]

theorem mkChainResult_total_of_ne_nil (s : Bool) (steps : List StepResult)
    (m : Option String) (e : Int) (d : ℚ) (h : steps ≠ []) :
    (mkChainResult s steps m e d).total_duration_ms =
      (steps.map (·.duration_ms)).sum := by
  unfold mkChainResult
  have hemp : steps.isEmpty = false := by
    cases steps with
    | nil => exact absurd rfl h
    | cons a l => rfl
  simp [hemp]

/-- Claim C2: sequential execution runs steps in declared order; at the
first step that is unsuccessful with `continue_on_failure = false`,
execution stops and every remaining step is recorded as a skipped
`StepResult` with the message "Skipped due to previous failure"; an
unsuccessful step with `continue_on_failure = true` does not stop the
chain; and the canonical 3-step chain whose second step fails with
`continue_on_failure = false` yields success/failed/skipped with overall
`ChainResult.success = false`. -/
theorem sequential_stop_on_failure :
    (∀ (pre : List StepSpec) (s : StepSpec) (post : List StepSpec),
      (∀ t ∈ pre, t.stops = false) → s.stops = true →
      executeSequential (pre ++ s :: post) =
        pre.map StepSpec.execute ++
          s.execute :: post.map (fun t => skippedStepResult t.name)) ∧
    (∀ (s : StepSpec) (rest : List StepSpec), s.stops = false →
      executeSequential (s :: rest) = s.execute :: executeSequential rest) ∧
    (∀ n, (skippedStepResult n).skipped = true ∧
      (skippedStepResult n).message = some "Skipped due to previous failure") ∧
    (∀ (r1 r3 : HookResult) (m2 : String) (d1 d2 d3 wc : ℚ),
      r1.success = true → r3.success = true →
      (executeSequential
          [⟨"step-1", false, .ok r1 d1⟩,
           ⟨"step-2", false, .raised m2 d2⟩,
           ⟨"step-3", false, .ok r3 d3⟩]).map
        (fun r => (r.success, r.skipped)) =
        [(true, false), (false, false), (false, true)] ∧
      (HookChain.execute
          [⟨"step-1", false, .ok r1 d1⟩,
           ⟨"step-2", false, .raised m2 d2⟩,
           ⟨"step-3", false, .ok r3 d3⟩] false [] wc).success = false) := by
  refine ⟨?_, executeSequential_cons_go, ?_, ?_⟩
  · intro pre s post hpre hs
    induction pre with
    | nil => simpa using executeSequential_cons_stop s post hs
    | cons t pre ih =>
        have ht : t.stops = false := hpre t (List.mem_cons_self t pre)
        have hrest : ∀ u ∈ pre, u.stops = false :=
          fun u hu => hpre u (List.mem_cons_of_mem t hu)
        calc executeSequential (t :: (pre ++ s :: post))
            = t.execute :: executeSequential (pre ++ s :: post) :=
              executeSequential_cons_go t _ ht
          _ = t.execute :: (pre.map StepSpec.execute ++
                s.execute :: post.map (fun u => skippedStepResult u.name)) := by
              rw [ih hrest]
          _ = _ := by simp
  · intro n
    exact ⟨rfl, rfl⟩
  · intro r1 r3 m2 d1 d2 d3 wc h1 h3
    have hstep1 : (StepSpec.mk "step-1" false (.ok r1 d1)).stops = false := by
      simp [StepSpec.stops, StepSpec.execute, mkStepResult, h1]
    have hstep2 : (StepSpec.mk "step-2" false (.raised m2 d2)).stops = true := by
      simp [StepSpec.stops, StepSpec.execute, mkStepResult]
    have hseq : executeSequential
        [⟨"step-1", false, .ok r1 d1⟩,
         ⟨"step-2", false, .raised m2 d2⟩,
         ⟨"step-3", false, .ok r3 d3⟩] =
        [(StepSpec.mk "step-1" false (.ok r1 d1)).execute,
         (StepSpec.mk "step-2" false (.raised m2 d2)).execute,
         skippedStepResult "step-3"] := by
      rw [executeSequential_cons_go _ _ hstep1, executeSequential_cons_stop _ _ hstep2]
      rfl
    constructor
    · rw [hseq]
      simp [StepSpec.execute, mkStepResult, skippedStepResult, h1]
    · have hcr : chainResults
          [⟨"step-1", false, .ok r1 d1⟩,
           ⟨"step-2", false, .raised m2 d2⟩,
           ⟨"step-3", false, .ok r3 d3⟩] false [] =
          executeSequential
            [⟨"step-1", false, .ok r1 d1⟩,
             ⟨"step-2", false, .raised m2 d2⟩,
             ⟨"step-3", false, .ok r3 d3⟩] := rfl
      unfold HookChain.execute
      rw [mkChainResult_success, hcr, hseq]
      have hfail : (StepSpec.mk "step-2" false (.raised m2 d2)).execute.success = false := rfl
      have hskip : (StepSpec.mk "step-2" false (.raised m2 d2)).execute.skipped = false := rfl
      simp [chainSuccess, hfail, hskip]

/-- Claim C2 witness: the sequential stop behaviour instantiated on a
concrete 3-step chain (step 2 raising) with all hypotheses discharged. -/
theorem sequential_stop_on_failure_witness :
    (executeSequential
        [⟨"step-1", false, .ok ⟨true, none, 0⟩ 1⟩,
         ⟨"step-2", false, .raised "boom" 2⟩,
         ⟨"step-3", false, .ok ⟨true, none, 0⟩ 3⟩]).map
      (fun r => (r.success, r.skipped)) =
      [(true, false), (false, false), (false, true)] ∧
    (HookChain.execute
        [⟨"step-1", false, .ok ⟨true, none, 0⟩ 1⟩,
         ⟨"step-2", false, .raised "boom" 2⟩,
         ⟨"step-3", false, .ok ⟨true, none, 0⟩ 3⟩] false [] 9).success = false :=
  sequential_stop_on_failure.2.2.2 ⟨true, none, 0⟩ ⟨true, none, 0⟩
    "boom" 1 2 3 9 rfl rfl

theorem StepSpec.execute_step_name (t : StepSpec) : t.execute.step_name = t.name := by
  cases h : t.outcome <;> simp [StepSpec.execute, h, mkStepResult]

theorem nameIndex_lt_length {x : String} : ∀ {names : List String},
    x ∈ names → nameIndex names x < names.length := by
  intro names
  induction names with
  | nil => intro h; simp at h
  | cons n rest ih =>
    intro h
    by_cases hx : x = n
    · simp [nameIndex, hx]
    · have hmem : x ∈ rest := by
        cases List.mem_cons.mp h with
        | inl h0 => exact absurd h0 hx
        | inr h0 => exact h0
      have := ih hmem
      simp only [nameIndex, if_neg hx, List.length_cons]
      omega

theorem nameIndex_cons_eq_zero (a : String) (ns : List String) (x : String) :
    (nameIndex (a :: ns) x == 0) = decide (x = a) := by
  by_cases h : x = a <;> simp [nameIndex, h]

theorem nameIndex_cons_eq_succ (a : String) (ns : List String) (x : String) (k : ℕ) :
    (nameIndex (a :: ns) x == k + 1) =
      ((nameIndex ns x == k) && decide ¬(x = a)) := by
  by_cases h : x = a
  · simp [nameIndex, h]
  · simp only [nameIndex, h, decide_not, decide_False, Bool.not_false,
      Bool.and_true, if_false]
    rw [Bool.eq_iff_iff]
    simp only [beq_iff_eq]
    omega

theorem flatMap_congr {α β : Type} {l : List α} {f g : α → List β}
    (h : ∀ a ∈ l, f a = g a) : l.flatMap f = l.flatMap g := by
  induction l with
  | nil => rfl
  | cons a l ih =>
    rw [List.flatMap_cons, List.flatMap_cons, h a (List.mem_cons_self a l),
      ih (fun b hb => h b (List.mem_cons_of_mem a hb))]

theorem flatMap_filter_cons {α : Type} [DecidableEq α] (f : α → ℕ) (x : α)
    (rest : List α) : ∀ (ks : List ℕ), ks.Nodup → f x ∈ ks →
    (ks.flatMap fun k => (x :: rest).filter (fun y => f y == k)).Perm
      (x :: ks.flatMap fun k => rest.filter (fun y => f y == k)) := by
  intro ks
  induction ks with
  | nil => intro _ hx; simp at hx
  | cons k ks ih =>
    intro hnd hx
    obtain ⟨hknotin, hnd'⟩ := List.nodup_cons.mp hnd
    rw [List.flatMap_cons, List.flatMap_cons]
    by_cases hfx : f x = k
    · have hhead : (x :: rest).filter (fun y => f y == k) =
          x :: rest.filter (fun y => f y == k) := by
        simp [List.filter_cons, hfx]
      have htail : (ks.flatMap fun j => (x :: rest).filter (fun y => f y == j)) =
          ks.flatMap fun j => rest.filter (fun y => f y == j) := by
        apply flatMap_congr
        intro j hj
        have hne : f x ≠ j := by
          intro heq
          exact hknotin (by rw [← hfx, heq]; exact hj)
        simp [List.filter_cons, hne]
      rw [hhead, htail, List.cons_append]
    · have hhead : (x :: rest).filter (fun y => f y == k) =
          rest.filter (fun y => f y == k) := by
        simp [List.filter_cons, hfx]
      have hx' : f x ∈ ks := by
        cases List.mem_cons.mp hx with
        | inl h0 => exact absurd h0 hfx
        | inr h0 => exact h0
      have hrec := ih hnd' hx'
      rw [hhead]
      exact (List.Perm.append_left _ hrec).trans List.perm_middle

theorem bucketed_perm {α : Type} [DecidableEq α] (f : α → ℕ) (n : ℕ) :
    ∀ (l : List α), (∀ x ∈ l, f x < n) →
    ((List.range n).flatMap fun k => l.filter (fun y => f y == k)).Perm l := by
  intro l
  induction l with
  | nil =>
    intro _
    have : ∀ ks : List ℕ,
        (ks.flatMap fun k => (([] : List α).filter (fun y => f y == k))) = [] := by
      intro ks
      induction ks with
      | nil => rfl
      | cons k ks ih => rw [List.flatMap_cons, ih]; rfl
    rw [this]
  | cons x xs ih =>
    intro h
    have hx : f x ∈ List.range n := List.mem_range.mpr (h x (List.mem_cons_self x xs))
    have h1 := flatMap_filter_cons f x xs (List.range n) (List.nodup_range n) hx
    have h2 := ih (fun y hy => h y (List.mem_cons_of_mem x hy))
    exact h1.trans (List.Perm.cons x h2)

theorem stableSortByName_perm (names : List String) (results : List StepResult)
    (h : ∀ r ∈ results, r.step_name ∈ names) :
    (stableSortByName names results).Perm results := by
  unfold stableSortByName
  exact bucketed_perm (fun r => nameIndex names r.step_name) names.length results
    (fun r hr => nameIndex_lt_length (h r hr))

theorem executeParallel_perm (steps completed : List StepSpec)
    (hperm : completed.Perm steps) :
    (executeParallel steps completed).Perm (completed.map StepSpec.execute) := by
  apply stableSortByName_perm
  intro r hr
  obtain ⟨t, ht, rfl⟩ := List.mem_map.mp hr
  rw [StepSpec.execute_step_name]
  exact List.mem_map_of_mem (·.name) (hperm.subset ht)

theorem executeParallel_length (steps completed : List StepSpec)
    (hperm : completed.Perm steps) :
    (executeParallel steps completed).length = steps.length := by
  rw [(executeParallel_perm steps completed hperm).length_eq, List.length_map,
    hperm.length_eq]

theorem executeParallel_eq_of_nodup :
    ∀ (steps completed : List StepSpec), (steps.map (·.name)).Nodup →
    completed.Perm steps →
    executeParallel steps completed = steps.map StepSpec.execute := by
  intro steps
  induction steps with
  | nil =>
    intro completed _ hperm
    rw [hperm.eq_nil]
    rfl
  | cons s rest ih =>
    intro completed hnd hperm
    have hnd0 := List.nodup_cons.mp (by rw [List.map_cons] at hnd; exact hnd)
    have hnd1 : s.name ∉ rest.map (·.name) := hnd0.1
    have hnd2 : (rest.map (·.name)).Nodup := hnd0.2
    have hhead : (completed.map StepSpec.execute).filter
        (fun r => nameIndex (s.name :: rest.map (·.name)) r.step_name == 0) =
        [s.execute] := by
      have hcong : (fun (r : StepResult) =>
          nameIndex (s.name :: rest.map (·.name)) r.step_name == 0) =
          (fun r => decide (r.step_name = s.name)) := by
        funext r
        exact nameIndex_cons_eq_zero _ _ _
      rw [hcong]
      have hp := (hperm.map StepSpec.execute).filter
        (fun r => decide (r.step_name = s.name))
      have hrestnil : (rest.map StepSpec.execute).filter
          (fun r => decide (r.step_name = s.name)) = [] := by
        rw [List.filter_eq_nil_iff]
        intro r hr
        obtain ⟨t, ht, rfl⟩ := List.mem_map.mp hr
        simp only [StepSpec.execute_step_name, decide_eq_true_eq]
        intro heq
        exact hnd1 (heq ▸ List.mem_map_of_mem (·.name) ht)
      have hright : ((s :: rest).map StepSpec.execute).filter
          (fun r => decide (r.step_name = s.name)) = [s.execute] := by
        rw [List.map_cons, List.filter_cons]
        simp only [StepSpec.execute_step_name, decide_True, if_true, hrestnil]
      rw [hright] at hp
      exact List.perm_singleton.mp hp
    have hfm : (completed.map StepSpec.execute).filter
        (fun r => decide ¬(r.step_name = s.name)) =
        (completed.filter (fun t => decide ¬(t.name = s.name))).map
          StepSpec.execute := by
      rw [List.filter_map]
      congr 1
      apply List.filter_congr
      intro t _
      simp [Function.comp, StepSpec.execute_step_name]
    have hpc : (completed.filter (fun t => decide ¬(t.name = s.name))).Perm rest := by
      have hp := hperm.filter (fun t => decide ¬(t.name = s.name))
      have h1 : (s :: rest).filter (fun t => decide ¬(t.name = s.name)) = rest := by
        rw [List.filter_cons]
        simp only [decide_not, decide_True, Bool.not_true, Bool.false_eq_true,
          if_false]
        rw [List.filter_eq_self]
        intro t ht
        simp only [decide_not, Bool.not_eq_true', decide_eq_false_iff_not]
        intro heq
        exact hnd1 (heq ▸ List.mem_map_of_mem (·.name) ht)
      rwa [h1] at hp
    have hIH := ih (completed.filter (fun t => decide ¬(t.name = s.name))) hnd2 hpc
    unfold executeParallel stableSortByName at hIH ⊢
    rw [List.map_cons, List.length_cons, List.range_succ_eq_map, List.flatMap_cons,
      List.flatMap_map, hhead]
    have htail : (List.range (rest.map (·.name)).length).flatMap
        (fun k => (completed.map StepSpec.execute).filter
          (fun r => nameIndex (s.name :: rest.map (·.name)) r.step_name == k + 1)) =
        rest.map StepSpec.execute := by
      rw [← hIH]
      apply flatMap_congr
      intro k _
      have hcong : (fun (r : StepResult) =>
          nameIndex (s.name :: rest.map (·.name)) r.step_name == k + 1) =
          (fun r => (nameIndex (rest.map (·.name)) r.step_name == k) &&
            decide ¬(r.step_name = s.name)) := by
        funext r
        exact nameIndex_cons_eq_succ _ _ _ k
      rw [hcong, ← List.filter_filter, hfm]
    rw [htail]
    rfl

/-- Claim C3 counterexample: with two declared steps sharing the name "x"
(the first failing, the second succeeding) and completion in reverse order,
`_execute_parallel`'s sort key `[s.name for s in steps].index(r.step_name)`
ties, so Python's stable sort leaves the two results in completion order:
the returned list is not in the original declared step order. -/
theorem parallel_duplicate_name_counterexample :
    ([⟨"x", false, .ok ⟨true, none, 0⟩ 2⟩,
      (⟨"x", false, .ok ⟨false, none, 1⟩ 1⟩ : StepSpec)].Perm
      [⟨"x", false, .ok ⟨false, none, 1⟩ 1⟩,
       ⟨"x", false, .ok ⟨true, none, 0⟩ 2⟩]) ∧
    executeParallel
        [⟨"x", false, .ok ⟨false, none, 1⟩ 1⟩,
         ⟨"x", false, .ok ⟨true, none, 0⟩ 2⟩]
        [⟨"x", false, .ok ⟨true, none, 0⟩ 2⟩,
         ⟨"x", false, .ok ⟨false, none, 1⟩ 1⟩] ≠
      [⟨"x", false, .ok ⟨false, none, 1⟩ 1⟩,
       (⟨"x", false, .ok ⟨true, none, 0⟩ 2⟩ : StepSpec)].map StepSpec.execute := by
  constructor
  · decide
  · decide

/-- Claim C3 (amended): provided the declared step names are pairwise
distinct, parallel execution returns exactly N `StepResult`s — the i-th
being the result of the i-th declared step — in the original declared
order, for every completion order (permutation of the declared steps); the
length is N for every completion order; and a step whose body raises is
captured as a failed, non-skipped `StepResult` rather than aborting the
batch.  (With duplicate step names, results that tie on the name key stay
in completion order — see the counterexample.) -/
theorem parallel_declared_order :
    ∀ (steps completed : List StepSpec),
    (steps.map (·.name)).Nodup → completed.Perm steps →
    executeParallel steps completed = steps.map StepSpec.execute ∧
    (executeParallel steps completed).length = steps.length ∧
    (∀ (s : StepSpec) (m : String) (d : ℚ), s.outcome = .raised m d →
      s.execute.success = false ∧ s.execute.skipped = false ∧
      s.execute.message = some ("Error: " ++ m)) := by
  intro steps completed hnd hperm
  refine ⟨executeParallel_eq_of_nodup steps completed hnd hperm,
    executeParallel_length steps completed hperm, ?_⟩
  intro s m d hs
  refine ⟨?_, ?_, ?_⟩ <;> simp [StepSpec.execute, hs, mkStepResult]

/-- Claim C3 witness: the declared-order guarantee applied to a concrete
2-step chain (the second step raising) completing in reverse order, with
the distinctness and permutation hypotheses discharged by evaluation. -/
theorem parallel_declared_order_witness :
    executeParallel
        [⟨"a", false, .ok ⟨true, none, 0⟩ 1⟩, ⟨"b", false, .raised "boom" 2⟩]
        [⟨"b", false, .raised "boom" 2⟩, ⟨"a", false, .ok ⟨true, none, 0⟩ 1⟩] =
      [⟨"a", false, .ok ⟨true, none, 0⟩ 1⟩,
       (⟨"b", false, .raised "boom" 2⟩ : StepSpec)].map StepSpec.execute :=
  (parallel_declared_order
    [⟨"a", false, .ok ⟨true, none, 0⟩ 1⟩, ⟨"b", false, .raised "boom" 2⟩]
    [⟨"b", false, .raised "boom" 2⟩, ⟨"a", false, .ok ⟨true, none, 0⟩ 1⟩]
    (by decide) (by decide)).1

/-- Claim C6 counterexample: for a chain with no steps,
`ChainResult.__post_init__` returns before overwriting
`total_duration_ms`, so the result keeps the wall-clock span passed by
`HookChain.execute` (here 5 ms) instead of the 0 ms sum of the (absent)
step durations. -/
theorem chain_empty_total_duration_counterexample :
    (HookChain.execute [] false [] 5).total_duration_ms ≠
      (((HookChain.execute [] false [] 5).steps.map (·.duration_ms)).sum) := by
  have h1 : (HookChain.execute [] false [] 5).total_duration_ms = 5 := rfl
  have h2 : (((HookChain.execute [] false [] 5).steps.map (·.duration_ms)).sum) = 0 := rfl
  rw [h1, h2]
  norm_num

/-- Claim C6 (amended): for every executed chain, `ChainResult.success` is
true iff every recorded `StepResult` is successful or skipped, and the
failed-step view is exactly the steps that are neither successful nor
skipped; for every chain with at least one step, `total_duration_ms` is the
sum of the individual step durations rather than the wall-clock span (an
empty chain keeps the wall-clock span).  For a parallel run the completion
order is an arbitrary permutation of the declared steps. -/
theorem chain_aggregation :
    ∀ (steps : List StepSpec) (parallel : Bool) (completed : List StepSpec)
      (wc : ℚ), (parallel = true → completed.Perm steps) →
    ((HookChain.execute steps parallel completed wc).success = true ↔
      ∀ r ∈ (HookChain.execute steps parallel completed wc).steps,
        r.success = true ∨ r.skipped = true) ∧
    ((HookChain.execute steps parallel completed wc).get_failed_steps =
      (HookChain.execute steps parallel completed wc).steps.filter
        (fun r => !r.success && !r.skipped)) ∧
    (steps ≠ [] →
      (HookChain.execute steps parallel completed wc).total_duration_ms =
        (((HookChain.execute steps parallel completed wc).steps.map
          (·.duration_ms)).sum)) := by
  intro steps parallel completed wc hpar
  refine ⟨?_, rfl, ?_⟩
  · unfold HookChain.execute
    rw [mkChainResult_success, mkChainResult_steps]
    unfold chainSuccess
    rw [List.all_eq_true]
    constructor
    · intro h r hr
      have := h r hr
      rcases Bool.or_eq_true_iff.mp this with h' | h'
      · exact Or.inl h'
      · exact Or.inr h'
    · intro h r hr
      rcases h r hr with h' | h' <;> simp [h']
  · intro hne
    have hres : chainResults steps parallel completed ≠ [] := by
      unfold chainResults
      cases parallel with
      | false =>
        simp only [Bool.false_eq_true, if_false]
        cases steps with
        | nil => exact absurd rfl hne
        | cons s rest =>
          unfold executeSequential
          by_cases hc : (!s.execute.success && !s.continue_on_failure) = true <;>
            simp [hc]
      | true =>
        simp only [if_true]
        intro hnil
        have := executeParallel_length steps completed (hpar rfl)
        rw [hnil] at this
        have hlen : steps.length = 0 := by simpa using this.symm
        exact hne (List.length_eq_zero.mp hlen)
    unfold HookChain.execute
    rw [mkChainResult_steps]
    exact mkChainResult_total_of_ne_nil _ _ _ _ _ hres

/-- Claim C6 witness: the aggregation guarantees applied to a concrete
2-step sequential chain (one success, one failure), with the permutation
and non-emptiness hypotheses discharged by evaluation. -/
theorem chain_aggregation_witness :
    ((HookChain.execute
        [⟨"a", false, .ok ⟨true, none, 0⟩ 1⟩, ⟨"b", true, .ok ⟨false, none, 1⟩ 2⟩]
        false [] 99).success = true ↔
      ∀ r ∈ (HookChain.execute
        [⟨"a", false, .ok ⟨true, none, 0⟩ 1⟩, ⟨"b", true, .ok ⟨false, none, 1⟩ 2⟩]
        false [] 99).steps, r.success = true ∨ r.skipped = true) ∧
    (HookChain.execute
        [⟨"a", false, .ok ⟨true, none, 0⟩ 1⟩, ⟨"b", true, .ok ⟨false, none, 1⟩ 2⟩]
        false [] 99).total_duration_ms =
      (((HookChain.execute
        [⟨"a", false, .ok ⟨true, none, 0⟩ 1⟩, ⟨"b", true, .ok ⟨false, none, 1⟩ 2⟩]
        false [] 99).steps.map (·.duration_ms)).sum) := by
  have h := chain_aggregation
    [⟨"a", false, .ok ⟨true, none, 0⟩ 1⟩, ⟨"b", true, .ok ⟨false, none, 1⟩ 2⟩]
    false [] 99 (by intro hc; exact absurd hc (by decide))
  exact ⟨h.1, h.2.2 (by decide)⟩

/-- Claim C7 counterexample: in a concrete sequential chain whose first
step fails, the remaining step is recorded as skipped, and its
`StepResult` does not carry exit code 0: `__post_init__` re-codes the
unsuccessful skipped result to `EXIT_FAILURE` = 1.  This refutes "every
StepResult recorded as skipped carries exit code 0". -/
theorem skipped_step_exit_code_counterexample :
    ¬ (∀ r ∈ executeSequential
        [⟨"s1", false, .ok ⟨false, none, 1⟩ 1⟩,
         ⟨"s2", false, .ok ⟨true, none, 0⟩ 2⟩],
        r.skipped = true → r.exit_code = 0) := by
  decide

/-- Claim C7 (amended): a skip at the hook-runner level is never encoded as
a non-zero exit code — a pattern-gated hook run returns `EXIT_SUCCESS` = 0
without executing the hook body — and at the chain level skipped steps
never make `ChainResult.success` false; but the `StepResult` recorded for
a skipped chain step itself carries `success = false` and an exit code
normalized to `EXIT_FAILURE` = 1, not 0. -/
theorem skip_never_failure :
    (∀ (gw : GitGateway) (hook_name : String) (stdin_lines : List String)
      (file_patterns : Option (List String)) (body : StepOutcome),
      should_run_based_on_patterns file_patterns
        (get_changed_files gw hook_name stdin_lines).1 = false →
      GitHook.run gw hook_name stdin_lines file_patterns body = EXIT_SUCCESS) ∧
    (∀ n, (skippedStepResult n).skipped = true ∧
      (skippedStepResult n).success = false ∧
      (skippedStepResult n).exit_code = EXIT_FAILURE) ∧
    (∀ results : List StepResult,
      (∀ r ∈ results, r.success = true ∨ r.skipped = true) →
      chainSuccess results = true) := by
  refine ⟨?_, ?_, ?_⟩
  · intro gw hook_name stdin_lines file_patterns body hgate
    unfold GitHook.run
    rw [hgate]
    rfl
  · intro n
    exact ⟨rfl, rfl, rfl⟩
  · intro results h
    unfold chainSuccess
    rw [List.all_eq_true]
    intro r hr
    rcases h r hr with h' | h' <;> simp [h']

/-- Claim C7 witness: a hook gated out by its patterns (no changed file
matches `*.py`) returns exit code 0 even though its body would fail, with
the gate hypothesis discharged by evaluation. -/
theorem skip_never_failure_witness :
    GitHook.run ⟨fun _ _ => [], ["test.txt"], []⟩ "test-hook" []
      (some ["*.py"]) (.ok ⟨false, none, 1⟩ 0) = EXIT_SUCCESS :=
  skip_never_failure.1 ⟨fun _ _ => [], ["test.txt"], []⟩ "test-hook" []
    (some ["*.py"]) (.ok ⟨false, none, 1⟩ 0) (by decide)

/-- Claim C4: constructing a `ChainStepConfig` with neither `hook` nor
`command` (truthily) set, or with both set, raises the configuration
`ValueError` at construction time (the `Except.error` of the constructor);
a step with exactly one of the two is constructed successfully —
`isOk` equals the exclusive-or of the two truthiness flags.  (`HookStep`
checks only the "neither" half; its acceptance of both is claim C10.) -/
theorem chain_step_config_exactly_one :
    (∀ name hook command cof par fp,
      (mkChainStepConfig name hook command cof par fp).isOk =
        ((truthyStr hook).xor (truthyList command))) ∧
    (∀ name cof par fp,
      mkChainStepConfig name none none cof par fp =
        .error ("Chain step '" ++ name ++ "' must have either 'hook' or 'command'")) ∧
    (∀ name h cmd cof par fp, truthyStr (some h) = true →
      truthyList (some cmd) = true →
      mkChainStepConfig name (some h) (some cmd) cof par fp =
        .error ("Chain step '" ++ name ++ "' cannot have both 'hook' and 'command'")) ∧
    (∀ name h cof par fp, truthyStr (some h) = true →
      mkChainStepConfig name (some h) none cof par fp =
        .ok ⟨name, some h, none, cof, par, fp⟩) ∧
    (∀ name cmd cof par fp, truthyList (some cmd) = true →
      mkChainStepConfig name none (some cmd) cof par fp =
        .ok ⟨name, none, some cmd, cof, par, fp⟩) ∧
    (∀ name cof,
      mkHookStep name none none cof =
        .error ("Step '" ++ name ++ "' must have either hook_class or command")) := by
  refine ⟨?_, ?_, ?_, ?_, ?_, ?_⟩
  · intro name hook command cof par fp
    unfold mkChainStepConfig
    cases th : truthyStr hook <;> cases tc : truthyList command <;>
      simp [th, tc, Except.isOk, Except.toBool]
  · intro name cof par fp
    rfl
  · intro name h cmd cof par fp hh hc
    unfold mkChainStepConfig
    rw [hh, hc]
    rfl
  · intro name h cof par fp hh
    unfold mkChainStepConfig
    rw [hh]
    rfl
  · intro name cmd cof par fp hc
    unfold mkChainStepConfig
    rw [hc]
    rfl
  · intro name cof
    rfl

/-- Claim C4 witness: the constructor evaluated at concrete inputs — a
step with only a hook, a step with only a command, a step with neither,
and a step with both — with all truthiness hypotheses discharged by
evaluation. -/
theorem chain_step_config_exactly_one_witness :
    mkChainStepConfig "lint" (some "flake8") none false false none =
      .ok ⟨"lint", some "flake8", none, false, false, none⟩ ∧
    mkChainStepConfig "fmt" none (some ["black", "."]) false false none =
      .ok ⟨"fmt", none, some ["black", "."], false, false, none⟩ ∧
    mkChainStepConfig "bad" none none false false none =
      .error "Chain step 'bad' must have either 'hook' or 'command'" ∧
    mkChainStepConfig "worse" (some "flake8") (some ["black", "."]) false false none =
      .error "Chain step 'worse' cannot have both 'hook' and 'command'" :=
  ⟨chain_step_config_exactly_one.2.2.2.1 "lint" "flake8" false false none (by decide),
   chain_step_config_exactly_one.2.2.2.2.1 "fmt" ["black", "."] false false none
     (by decide),
   chain_step_config_exactly_one.2.1 "bad" false false none,
   chain_step_config_exactly_one.2.2.1 "worse" "flake8" ["black", "."] false false
     none (by decide) (by decide)⟩

/-- Claim C10: a `HookStep` constructed with both a hook class and a
command vector succeeds without raising (`__init__` only rejects the
"neither" case), and `execute`'s `if self.hook_class:` branch wins: only
the hook is run, the command vector is silently ignored. -/
theorem hook_step_both_set_runs_hook_only :
    ∀ (name h : String) (cmd : List String) (cof : Bool),
      mkHookStep name (some h) (some cmd) cof = .ok ⟨name, some h, some cmd, cof⟩ ∧
      (HookStep.mk name (some h) (some cmd) cof).executedActions =
        [.hookRun h] := by
  intro name h cmd cof
  exact ⟨rfl, rfl⟩

/-- Claim C5: the pattern gate always runs for absent or explicitly empty
pattern lists; for a non-empty pattern list it runs iff some changed file
matches some pattern under glob semantics (so with no changed files it
does not run); and the glob semantics keep `*` inside one path segment
while `**` crosses segment boundaries, as the concrete matches show. -/
theorem pattern_gate_decision :
    (∀ files, should_run_based_on_patterns none files = true) ∧
    (∀ files, should_run_based_on_patterns (some []) files = true) ∧
    (∀ pats files, pats ≠ [] →
      (should_run_based_on_patterns (some pats) files = true ↔
        ∃ f ∈ files, ∃ p ∈ pats, globMatch p f = true)) ∧
    (∀ pats, pats ≠ [] → should_run_based_on_patterns (some pats) [] = false) ∧
    (globMatch "*.py" "app.py" = true ∧
     globMatch "*.py" "src/app.py" = false ∧
     globMatch "src/**/*.ts" "src/components/App.ts" = true ∧
     globMatch "src/**/*.ts" "src/a/b/App.ts" = true ∧
     globMatch "**/*.py" "src/app.py" = true ∧
     globMatch "*.py" "test.txt" = false) := by
  refine ⟨fun files => rfl, fun files => rfl, ?_, ?_, ?_⟩
  · intro pats files hne
    cases pats with
    | nil => exact absurd rfl hne
    | cons p ps =>
      unfold should_run_based_on_patterns
      simp [List.any_eq_true]
  · intro pats hne
    cases pats with
    | nil => exact absurd rfl hne
    | cons p ps => rfl
  · refine ⟨?_, ?_, ?_, ?_, ?_, ?_⟩ <;> decide

/-- Claim C5 witness: the gate evaluated through the iff at a concrete
non-empty pattern list — it runs when a changed file matches and refuses
to run on an empty changed-files list — with all hypotheses discharged by
evaluation. -/
theorem pattern_gate_decision_witness :
    should_run_based_on_patterns (some ["*.py", "src/**/*.ts"])
      ["README.md", "src/components/App.ts"] = true ∧
    should_run_based_on_patterns (some ["*.py", "src/**/*.ts"]) [] = false := by
  constructor
  · exact (pattern_gate_decision.2.2.1 ["*.py", "src/**/*.ts"]
      ["README.md", "src/components/App.ts"] (by decide)).mpr
      ⟨"src/components/App.ts", by decide, "src/**/*.ts", by decide, by decide⟩
  · exact pattern_gate_decision.2.2.2.1 ["*.py", "src/**/*.ts"] (by decide)

/-- Claim C1: changed-file resolution — a pre-push invocation whose first
stdin line parses as a four-token ref-update line resolves files via the
diff between the parsed refs (remote passed first), issuing only that git
query, even when the diff is empty; every other invocation (wrong hook, or
pre-push with an unparsable first line or no stdin) uses the staged
(cached-index) list when non-empty, and queries the all-modified list only
when the staged list is empty.  The parsing facts pin down the four-token
shape of the ref line. -/
theorem changed_files_resolution :
    (∀ (gw : GitGateway) (stdin_lines : List String) (remote_ref local_ref : String),
      parse_pre_push_refs_from_stdin stdin_lines = some (remote_ref, local_ref) →
      get_changed_files gw "pre-push" stdin_lines =
        (gw.diff_files_between_refs remote_ref local_ref,
          [.diffFilesBetweenRefs remote_ref local_ref])) ∧
    (∀ (gw : GitGateway) (hook_name : String) (stdin_lines : List String),
      (hook_name = "pre-push" →
        parse_pre_push_refs_from_stdin stdin_lines = none) →
      gw.cached_index_files ≠ [] →
      get_changed_files gw hook_name stdin_lines =
        (gw.cached_index_files, [.cachedIndexFiles])) ∧
    (∀ (gw : GitGateway) (hook_name : String) (stdin_lines : List String),
      (hook_name = "pre-push" →
        parse_pre_push_refs_from_stdin stdin_lines = none) →
      gw.cached_index_files = [] →
      get_changed_files gw hook_name stdin_lines =
        (gw.all_modified_files, [.cachedIndexFiles, .allModifiedFiles])) ∧
    (∀ (line : String) (rest : List String)
      (local_ref local_sha remote_ref remote_sha : String) (more : List String),
      tokens line = local_ref :: local_sha :: remote_ref :: remote_sha :: more →
      parse_pre_push_refs_from_stdin (line :: rest) = some (remote_ref, local_ref)) ∧
    (∀ (line : String) (rest : List String), (tokens line).length < 4 →
      parse_pre_push_refs_from_stdin (line :: rest) = none) ∧
    parse_pre_push_refs_from_stdin [] = none := by
  have hfall : ∀ (gw : GitGateway), gw.cached_index_files ≠ [] →
      changedFilesFallback gw = (gw.cached_index_files, [.cachedIndexFiles]) := by
    intro gw hne
    unfold changedFilesFallback
    have hemp : gw.cached_index_files.isEmpty = false := by
      cases h : gw.cached_index_files with
      | nil => exact absurd h hne
      | cons a l => rfl
    simp [hemp]
  have hfall2 : ∀ (gw : GitGateway), gw.cached_index_files = [] →
      changedFilesFallback gw =
        (gw.all_modified_files, [.cachedIndexFiles, .allModifiedFiles]) := by
    intro gw hemp
    unfold changedFilesFallback
    simp [hemp]
  refine ⟨?_, ?_, ?_, ?_, ?_, rfl⟩
  · intro gw stdin_lines remote_ref local_ref hparse
    unfold get_changed_files
    rw [if_pos rfl, hparse]
  · intro gw hook_name stdin_lines hparse hne
    unfold get_changed_files
    by_cases hhook : hook_name = "pre-push"
    · rw [if_pos hhook, hparse hhook]
      exact hfall gw hne
    · rw [if_neg hhook]
      exact hfall gw hne
  · intro gw hook_name stdin_lines hparse hemp
    unfold get_changed_files
    by_cases hhook : hook_name = "pre-push"
    · rw [if_pos hhook, hparse hhook]
      exact hfall2 gw hemp
    · rw [if_neg hhook]
      exact hfall2 gw hemp
  · intro line rest local_ref local_sha remote_ref remote_sha more htok
    have hstep : parse_pre_push_refs_from_stdin (line :: rest) =
        (match tokens line with
         | l :: _ :: r :: _ :: _ => some (r, l)
         | _ => none) := rfl
    rw [hstep, htok]
  · intro line rest hlen
    have hstep : parse_pre_push_refs_from_stdin (line :: rest) =
        (match tokens line with
         | l :: _ :: r :: _ :: _ => some (r, l)
         | _ => none) := rfl
    rw [hstep]
    cases htok : tokens line with
    | nil => rfl
    | cons a t1 =>
      cases t1 with
      | nil => rfl
      | cons b t2 =>
        cases t2 with
        | nil => rfl
        | cons c t3 =>
          cases t3 with
          | nil => rfl
          | cons d t4 =>
            rw [htok] at hlen
            simp [List.length_cons] at hlen
            omega

/-- Claim C1 witness: the three strategies evaluated on concrete gateways —
a pre-push with a valid ref line uses only the diff query (even though the
staged list is non-empty), a pre-commit with staged files uses only the
cached-index query, and a pre-push with an unparsable line falls back to
the all-modified query — with all hypotheses discharged by evaluation. -/
theorem changed_files_resolution_witness :
    get_changed_files
        ⟨fun r l => [r ++ "-" ++ l], ["staged.py"], ["other.py"]⟩ "pre-push"
        ["refs/heads/main aaa refs/remotes/origin/main bbb"] =
      (["refs/remotes/origin/main-refs/heads/main"],
        [.diffFilesBetweenRefs "refs/remotes/origin/main" "refs/heads/main"]) ∧
    get_changed_files ⟨fun _ _ => [], ["staged.py"], ["other.py"]⟩ "pre-commit" [] =
      (["staged.py"], [.cachedIndexFiles]) ∧
    get_changed_files ⟨fun _ _ => [], [], ["other.py"]⟩ "pre-push" ["short line"] =
      (["other.py"], [.cachedIndexFiles, .allModifiedFiles]) := by
  refine ⟨?_, ?_, ?_⟩
  · exact changed_files_resolution.1
      ⟨fun r l => [r ++ "-" ++ l], ["staged.py"], ["other.py"]⟩
      ["refs/heads/main aaa refs/remotes/origin/main bbb"]
      "refs/remotes/origin/main" "refs/heads/main" (by decide)
  · exact changed_files_resolution.2.1 ⟨fun _ _ => [], ["staged.py"], ["other.py"]⟩
      "pre-commit" [] (by intro h; exact absurd h (by decide)) (by decide)
  · exact changed_files_resolution.2.2.1 ⟨fun _ _ => [], [], ["other.py"]⟩
      "pre-push" ["short line"] (by intro h; decide) rfl

theorem mem_uniqueKeysAux : ∀ (l acc : List String) (x : String),
    x ∈ uniqueKeysAux l acc ↔ x ∈ l ∨ x ∈ acc := by
  intro l
  induction l with
  | nil =>
    intro acc x
    unfold uniqueKeysAux
    simp
  | cons y ys ih =>
    intro acc x
    unfold uniqueKeysAux
    by_cases hy : y ∈ acc
    · rw [if_pos hy, ih]
      simp only [List.mem_cons]
      constructor
      · rintro (h | h)
        · exact Or.inl (Or.inr h)
        · exact Or.inr h
      · rintro ((rfl | h) | h)
        · exact Or.inr hy
        · exact Or.inl h
        · exact Or.inr h
    · rw [if_neg hy, ih]
      simp only [List.mem_cons]
      tauto

theorem mem_uniqueKeys (l : List String) (x : String) :
    x ∈ uniqueKeys l ↔ x ∈ l := by
  unfold uniqueKeys
  rw [mem_uniqueKeysAux]
  simp

theorem mem_groupByHookName {l : List HookClass} {g : String × List HookClass}
    (hg : g ∈ groupByHookName l) :
    g.2 = l.filter (fun c => c.hook_name == g.1) := by
  unfold groupByHookName at hg
  obtain ⟨h, _, rfl⟩ := List.mem_map.mp hg
  rfl

theorem group_exists (l : List HookClass) (t : HookClass) (ht : t ∈ l) :
    (t.hook_name, l.filter (fun c => c.hook_name == t.hook_name)) ∈
      groupByHookName l := by
  unfold groupByHookName
  apply List.mem_map_of_mem
  rw [mem_uniqueKeys]
  exact List.mem_map_of_mem (·.hook_name) ht

theorem one_lt_length_of_two_mem {α : Type} {m : List α} {a b : α}
    (ha : a ∈ m) (hb : b ∈ m) (hne : a ≠ b) : 1 < m.length := by
  cases m with
  | nil => simp at ha
  | cons x xs =>
    cases xs with
    | nil =>
      simp at ha hb
      exact absurd (ha.trans hb.symm) hne
    | cons y ys =>
      simp only [List.length_cons]
      omega

theorem exists_two_distinct_of_nodup {α : Type} {m : List α}
    (hnd : m.Nodup) (h : 1 < m.length) : ∃ a b, a ∈ m ∧ b ∈ m ∧ a ≠ b := by
  cases m with
  | nil => simp at h
  | cons x xs =>
    cases xs with
    | nil => simp at h
    | cons y ys =>
      refine ⟨x, y, List.mem_cons_self x (y :: ys),
        List.mem_cons_of_mem x (List.mem_cons_self y ys), ?_⟩
      intro heq
      exact (List.nodup_cons.mp hnd).1 (heq ▸ List.mem_cons_self y ys)

/-- Claim C9: the discovery pass fails exactly when two distinct
implementation types declare the same hook name — the duplicate is never
silently resolved — and the raised error's message is built from the full
group of registered types with that hook name, rendering the hook name and
every offending type with its best-effort source file, as the concrete
message shows. -/
theorem duplicate_hook_detection :
    (∀ l : List HookClass,
      ((∃ e, discoveryValidation l = .error e) ↔
        ∃ t1 t2, t1 ∈ l ∧ t2 ∈ l ∧ t1 ≠ t2 ∧ t1.hook_name = t2.hook_name)) ∧
    (∀ (l : List HookClass) (e : String), discoveryValidation l = .error e →
      ∃ hname, e = duplicateHookMessage hname
          (l.filter (fun c => c.hook_name == hname)) ∧
        1 < (l.filter (fun c => c.hook_name == hname)).dedup.length) ∧
    (duplicateHookMessage "test-hook"
        [⟨"MockHook1", some "test_module.py", "test-hook"⟩,
         ⟨"MockHook2", some "test_module.py", "test-hook"⟩] =
      "Duplicate hook implementations found for hook 'test-hook': " ++
        "MockHook1 (test_module.py), MockHook2 (test_module.py)") := by
  refine ⟨?_, ?_, rfl⟩
  · intro l
    unfold discoveryValidation validate_no_duplicate_hooks
    constructor
    · rintro ⟨e, he⟩
      cases hfind : (groupByHookName l).find?
          (fun g => decide (1 < g.2.dedup.length)) with
      | none =>
        rw [hfind] at he
        exact absurd he (by simp)
      | some g =>
        have hg := List.mem_of_find?_eq_some hfind
        have hlt := List.find?_some hfind
        simp only [decide_eq_true_eq] at hlt
        obtain ⟨a, b, ha, hb, hab⟩ :=
          exists_two_distinct_of_nodup (List.nodup_dedup g.2) hlt
        have hfil := mem_groupByHookName hg
        have ha2 : a ∈ g.2 := List.mem_dedup.mp ha
        have hb2 : b ∈ g.2 := List.mem_dedup.mp hb
        rw [hfil] at ha2 hb2
        have haname : a.hook_name = g.1 := by
          simpa using List.of_mem_filter ha2
        have hbname : b.hook_name = g.1 := by
          simpa using List.of_mem_filter hb2
        exact ⟨a, b, List.mem_of_mem_filter ha2, List.mem_of_mem_filter hb2,
          hab, haname.trans hbname.symm⟩
    · rintro ⟨t1, t2, h1, h2, hne, hname⟩
      cases hfind : (groupByHookName l).find?
          (fun g => decide (1 < g.2.dedup.length)) with
      | some g =>
        exact ⟨duplicateHookMessage g.1 g.2, rfl⟩
      | none =>
        exfalso
        have hall := List.find?_eq_none.mp hfind
        have hgrp := group_exists l t1 h1
        apply hall _ hgrp
        apply decide_eq_true
        have ht1f : t1 ∈ l.filter (fun c => c.hook_name == t1.hook_name) :=
          List.mem_filter.mpr ⟨h1, by simp⟩
        have ht2f : t2 ∈ l.filter (fun c => c.hook_name == t1.hook_name) :=
          List.mem_filter.mpr ⟨h2, by rw [← hname]; simp⟩
        exact one_lt_length_of_two_mem (List.mem_dedup.mpr ht1f)
          (List.mem_dedup.mpr ht2f) hne
  · intro l e he
    unfold discoveryValidation validate_no_duplicate_hooks at he
    cases hfind : (groupByHookName l).find?
        (fun g => decide (1 < g.2.dedup.length)) with
    | none =>
      rw [hfind] at he
      exact absurd he (by simp)
    | some g =>
      rw [hfind] at he
      have hg := List.mem_of_find?_eq_some hfind
      have hpred := List.find?_some hfind
      simp only [decide_eq_true_eq] at hpred
      have hfil := mem_groupByHookName hg
      simp only [Except.error.injEq] at he
      refine ⟨g.1, ?_, ?_⟩
      · rw [← he, hfil]
      · rw [← hfil]
        exact hpred

/-- Claim C9 witness: two distinct types both declaring hook name
"pre-commit" make the discovery pass fail, with the concrete error message
naming the hook and both offending types; all hypotheses of the detection
theorem are discharged by evaluation. -/
theorem duplicate_hook_detection_witness :
    (∃ e, discoveryValidation
        [⟨"MockHook1", some "test_module.py", "pre-commit"⟩,
         ⟨"MockHook2", some "test_module.py", "pre-commit"⟩] = .error e) ∧
    discoveryValidation
        [⟨"MockHook1", some "test_module.py", "pre-commit"⟩,
         ⟨"MockHook2", some "test_module.py", "pre-commit"⟩] =
      .error ("Duplicate hook implementations found for hook 'pre-commit': " ++
        "MockHook1 (test_module.py), MockHook2 (test_module.py)") := by
  constructor
  · exact (duplicate_hook_detection.1
      [⟨"MockHook1", some "test_module.py", "pre-commit"⟩,
       ⟨"MockHook2", some "test_module.py", "pre-commit"⟩]).mpr
      ⟨⟨"MockHook1", some "test_module.py", "pre-commit"⟩,
       ⟨"MockHook2", some "test_module.py", "pre-commit"⟩,
       by decide, by decide, by decide, rfl⟩
  · rfl

end Githooklib
